import Mathlib

/-!
Shallow embedding of the Caesar cipher in src/caesar/src/caesar.rs and proofs of
the specified properties. Strings are modelled as lists of Unicode scalar values
(Lean Char, matching Rust char); Rust i32 arithmetic is modelled on Int, where the
truncating remainder operator of Rust is Int.tmod; the two unwrap calls of the
source are modelled by an Option layer whose none value stands for a panic.
-/

/-- The two cipher directions of the Rust enum Mode. -/
inductive Mode where
  | Encrypt
  | Decrypt
deriving DecidableEq

/-- The unit error struct KeyError of the Rust source. -/
inductive KeyError where
  | mk
deriving DecidableEq

/-- LATIN CAPITAL LETTER I WITH DOT ABOVE, U+0130. -/
def capitalIWithDot : Char := Char.ofNat 0x130

/-- KELVIN SIGN, U+212A. -/
def kelvinSign : Char := Char.ofNat 0x212A

/-- COMBINING DOT ABOVE, U+0307. -/
def combiningDotAbove : Char := Char.ofNat 0x307

/-- Models Rust char::to_lowercase (the full Unicode lowercase mapping) as observed
by caesar. ASCII uppercase letters map to their ASCII lowercase forms; U+0130 maps
to the two-character sequence i, U+0307 and U+212A maps to k: in the whole Unicode
table these are the only code points besides A-Z whose lowercase expansion begins
with one of the letters a-z. Every other character is modelled as mapping to itself:
caesar only consults the first character of the result, and only for membership in
a-z, and for all remaining characters both the character itself and its true
lowercase form have their first character outside a-z, so the simplification cannot
change any behaviour of caesar. -/
def char_to_lowercase (c : Char) : List Char :=
  if 65 ≤ c.toNat ∧ c.toNat ≤ 90 then [Char.ofNat (c.toNat + 32)]
  else if c = capitalIWithDot then ['i', combiningDotAbove]
  else if c = kelvinSign then ['k']
  else [c]

/-- Models Rust char::is_uppercase (the Unicode Uppercase property) on the
characters caesar can consult it for: caesar only tests ic.is_uppercase() when the
first character of the lowercase expansion of ic lies in a-z, i.e. for A-Z, a-z,
U+0130 and U+212A. There the model is exact (A-Z, U+0130 and U+212A have the
Uppercase property; a-z do not); all other characters, for which caesar never
evaluates the test, are mapped to false. -/
def char_is_uppercase (c : Char) : Bool :=
  if (65 ≤ c.toNat ∧ c.toNat ≤ 90) ∨ c = capitalIWithDot ∨ c = kelvinSign then true
  else false

/-- Models Rust str::to_uppercase on the one-character strings caesar applies it to:
the argument matched_char is always one of the alphabet letters a-z, each of which
uppercases to the single corresponding ASCII capital; any other character (never
reached by caesar) is modelled as left unchanged. -/
def single_char_to_uppercase (c : Char) : List Char :=
  if 97 ≤ c.toNat ∧ c.toNat ≤ 122 then [Char.ofNat (c.toNat - 32)] else [c]

/-- The 26-letter array alphabet_pos of caesar. -/
def alphabet_pos : List Char :=
  ['a', 'b', 'c', 'd', 'e', 'f', 'g', 'h', 'i', 'j', 'k', 'l', 'm',
   'n', 'o', 'p', 'q', 'r', 's', 't', 'u', 'v', 'w', 'x', 'y', 'z']

/-- Models the HashMap alphabet_dic that caesar builds by inserting (letter, index)
for every enumerated letter of alphabet_pos: the 26 keys are distinct, so the
resulting lookup sends each alphabet letter to its zero-based position and every
other character to none. -/
def alphabet_dic (c : Char) : Option Nat :=
  if c = 'a' then some 0
  else if c = 'b' then some 1
  else if c = 'c' then some 2
  else if c = 'd' then some 3
  else if c = 'e' then some 4
  else if c = 'f' then some 5
  else if c = 'g' then some 6
  else if c = 'h' then some 7
  else if c = 'i' then some 8
  else if c = 'j' then some 9
  else if c = 'k' then some 10
  else if c = 'l' then some 11
  else if c = 'm' then some 12
  else if c = 'n' then some 13
  else if c = 'o' then some 14
  else if c = 'p' then some 15
  else if c = 'q' then some 16
  else if c = 'r' then some 17
  else if c = 's' then some 18
  else if c = 't' then some 19
  else if c = 'u' then some 20
  else if c = 'v' then some 21
  else if c = 'w' then some 22
  else if c = 'x' then some 23
  else if c = 'y' then some 24
  else if c = 'z' then some 25
  else none

/-- Models the Rust cast (x as usize) applied to an i32 value on a 64-bit target:
the value is sign-extended and reinterpreted, i.e. reduced modulo 2 to the 64th
power, 18446744073709551616. -/
def i32_as_usize (x : Int) : Nat := (x % 18446744073709551616).toNat

/-- calc_index_forward of the Rust source: (letter_index as i32 + key) % 26, cast
to usize. The % of Rust truncates toward zero, i.e. Int.tmod. The i32 sum cannot
overflow for the indices (below 26) and the validated keys (at most 999999) that
caesar supplies, so plain Int addition is exact. -/
def calc_index_forward (letter_index : Nat) (key : Int) : Nat :=
  let li : Int := letter_index
  let result : Int := (li + key).tmod 26
  i32_as_usize result

/-- calc_index_backward of the Rust source: (letter_index as i32 - key) % 26 with
truncating %, then 26 is added when the remainder is negative, and the result is
cast to usize. -/
def calc_index_backward (letter_index : Nat) (key : Int) : Nat :=
  let li : Int := letter_index
  let result : Int := (li - key).tmod 26
  i32_as_usize (if result < 0 then 26 + result else result)

/-- The match on dir inside the loop of caesar that chooses the shift direction. -/
def shift_index (key : Int) (dir : Mode) (index : Nat) : Nat :=
  match dir with
  | Mode.Encrypt => calc_index_forward index key
  | Mode.Decrypt => calc_index_backward index key

/-- The body of the per-character loop of caesar for one input character ic: none
models a panic of one of the two unwrap calls, otherwise some gives the characters
pushed onto the result string for ic. -/
def process_char (key : Int) (dir : Mode) (ic : Char) : Option (List Char) :=
  match (char_to_lowercase ic).head? with
  | none => none
  | some lc =>
    match alphabet_dic lc with
    | some index =>
      match alphabet_pos.get? (shift_index key dir index) with
      | none => none
      | some matched_char =>
        if char_is_uppercase ic then some (single_char_to_uppercase matched_char)
        else some [matched_char]
    | none => some [ic]

/-- The loop of caesar over the input characters, concatenating the pushed chunks;
none propagates a panic from any iteration. -/
def caesar_go (key : Int) (dir : Mode) : List Char → Option (List Char)
  | [] => some []
  | ic :: rest =>
    match process_char key dir ic, caesar_go key dir rest with
    | some chunk, some out => some (chunk ++ out)
    | _, _ => none

/-- The public function caesar of the Rust source. The outer Except models the
Result return value with Err(KeyError) for an out-of-range key; the inner Option is
none when the run would panic, which the no-panic theorem below rules out. -/
def caesar (input : List Char) (key : Int) (dir : Mode) :
    Except KeyError (Option (List Char)) :=
  if key < 0 then Except.error KeyError.mk
  else if 999999 < key then Except.error KeyError.mk
  else Except.ok (caesar_go key dir input)

/-- The total per-character transformation caesar performs for a validated key
(proved below to agree with process_char): a helper for stating and proving the
claimed properties. -/
def transform_char (key : Int) (dir : Mode) (ic : Char) : Char :=
  match alphabet_dic ((char_to_lowercase ic).headD ic) with
  | none => ic
  | some index =>
    match alphabet_pos.get? (shift_index key dir index) with
    | none => ic
    | some matched_char =>
      if char_is_uppercase ic then Char.ofNat (matched_char.toNat - 32)
      else matched_char

example : caesar ['A', 'B', 'C'] 1 Mode.Encrypt = Except.ok (some ['B', 'C', 'D']) := rfl
example : caesar ['B', 'C', 'D'] 1 Mode.Decrypt = Except.ok (some ['A', 'B', 'C']) := rfl
example : caesar ['(', 'A', 'B', 'C', ')', 'D'] 1 Mode.Encrypt = Except.ok (some ['(', 'B', 'C', 'D', ')', 'E']) := rfl
example : caesar ['X', 'Y'] 3 Mode.Encrypt = Except.ok (some ['A', 'B']) := rfl
example : caesar ['B', 'C'] 3 Mode.Decrypt = Except.ok (some ['Y', 'Z']) := rfl
example : caesar ['A', 'B', 'C'] 999999 Mode.Encrypt = Except.ok (some ['N', 'O', 'P']) := rfl
example : caesar ['A', 'B', 'C'] 1000000 Mode.Encrypt = Except.error KeyError.mk := rfl
example : caesar ['A', 'B', 'C'] (-1) Mode.Encrypt = Except.error KeyError.mk := rfl
example : caesar [capitalIWithDot] 1 Mode.Encrypt = Except.ok (some ['J']) := rfl
example : caesar [kelvinSign] 0 Mode.Encrypt = Except.ok (some ['K']) := rfl
example : caesar ['A', 'B', 'C'] 55 Mode.Decrypt = Except.ok (some ['X', 'Y', 'Z']) := rfl

/-! ### Basic facts about characters, the index arithmetic and the lookup tables -/

theorem char_ofNat_toNat (c : Char) : Char.ofNat c.toNat = c := by
  have h : Nat.isValidChar c.toNat := c.valid
  unfold Char.ofNat
  rw [dif_pos h]
  apply Char.eq_of_val_eq
  apply UInt32.eq_of_toBitVec_eq
  apply BitVec.eq_of_toNat_eq
  simp [Char.ofNatAux, Char.toNat, UInt32.toNat]

theorem char_toNat_inj {a b : Char} (h : a.toNat = b.toNat) : a = b := by
  have h2 := congrArg Char.ofNat h
  rwa [char_ofNat_toNat, char_ofNat_toNat] at h2

theorem char_eq_lower_letter (c : Char) (h : 97 ≤ c.toNat ∧ c.toNat ≤ 122) :
    ∃ p, p < 26 ∧ c = Char.ofNat (97 + p) := by
  refine ⟨c.toNat - 97, by omega, ?_⟩
  have h2 : 97 + (c.toNat - 97) = c.toNat := by omega
  rw [h2, char_ofNat_toNat]

theorem char_eq_upper_letter (c : Char) (h : 65 ≤ c.toNat ∧ c.toNat ≤ 90) :
    ∃ p, p < 26 ∧ c = Char.ofNat (65 + p) := by
  refine ⟨c.toNat - 65, by omega, ?_⟩
  have h2 : 65 + (c.toNat - 65) = c.toNat := by omega
  rw [h2, char_ofNat_toNat]

theorem tmod26_ofNat (m : Nat) : (Int.ofNat m).tmod 26 = Int.ofNat (m % 26) := rfl

theorem tmod26_negSucc (m : Nat) :
    (Int.negSucc m).tmod 26 = -Int.ofNat ((m + 1) % 26) := rfl

theorem i32_as_usize_small (x : Int) (h0 : 0 ≤ x) (h1 : x < 18446744073709551616) :
    i32_as_usize x = x.toNat := by
  unfold i32_as_usize
  rw [Int.emod_eq_of_lt h0 h1]

theorem calc_index_forward_eq (p : Nat) (key : Int) (h0 : 0 ≤ key) :
    calc_index_forward p key = (((p : Int) + key) % 26).toNat := by
  simp only [calc_index_forward]
  rcases h : (p : Int) + key with m | m
  · rw [tmod26_ofNat]
    simp only [Int.ofNat_eq_natCast] at h ⊢
    rw [i32_as_usize_small _ (by omega) (by omega)]
    omega
  · exfalso
    rw [Int.negSucc_eq] at h
    omega

theorem calc_index_backward_eq (p : Nat) (key : Int) :
    calc_index_backward p key = (((p : Int) - key) % 26).toNat := by
  simp only [calc_index_backward]
  rcases h : (p : Int) - key with m | m
  · rw [tmod26_ofNat]
    simp only [Int.ofNat_eq_natCast] at h ⊢
    rw [if_neg (by omega), i32_as_usize_small _ (by omega) (by omega)]
    omega
  · rw [tmod26_negSucc]
    simp only [Int.ofNat_eq_natCast, Int.negSucc_eq] at h ⊢
    split_ifs with hneg
    · rw [i32_as_usize_small _ (by omega) (by omega)]
      omega
    · rw [i32_as_usize_small _ (by omega) (by omega)]
      omega

theorem calc_index_forward_lt (p : Nat) (key : Int) (h0 : 0 ≤ key) :
    calc_index_forward p key < 26 := by
  rw [calc_index_forward_eq p key h0]
  omega

theorem calc_index_backward_lt (p : Nat) (key : Int) :
    calc_index_backward p key < 26 := by
  rw [calc_index_backward_eq]
  omega

theorem shift_index_lt (key : Int) (dir : Mode) (p : Nat) (h0 : 0 ≤ key) :
    shift_index key dir p < 26 := by
  cases dir
  · exact calc_index_forward_lt p key h0
  · exact calc_index_backward_lt p key

theorem shift_roundtrip (p : Nat) (key : Int) (h0 : 0 ≤ key) (hp : p < 26) :
    calc_index_backward (calc_index_forward p key) key = p := by
  rw [calc_index_forward_eq p key h0, calc_index_backward_eq]
  omega

theorem calc_index_forward_mod (p : Nat) (key : Int) (h0 : 0 ≤ key) :
    calc_index_forward p key = calc_index_forward p (key % 26) := by
  rw [calc_index_forward_eq p key h0, calc_index_forward_eq p (key % 26) (by omega)]
  omega

theorem calc_index_backward_mod (p : Nat) (key : Int) :
    calc_index_backward p key = calc_index_backward p (key % 26) := by
  rw [calc_index_backward_eq, calc_index_backward_eq]
  omega

theorem shift_index_mod (key : Int) (dir : Mode) (p : Nat) (h0 : 0 ≤ key) :
    shift_index key dir p = shift_index (key % 26) dir p := by
  cases dir
  · exact calc_index_forward_mod p key h0
  · exact calc_index_backward_mod p key

theorem shift_index_zero (dir : Mode) (p : Nat) (hp : p < 26) : shift_index 0 dir p = p := by
  cases dir
  · rw [shift_index, calc_index_forward_eq p 0 (by omega)]
    omega
  · rw [shift_index, calc_index_backward_eq]
    omega

theorem alphabet_pos_get : ∀ p, p < 26 → alphabet_pos.get? p = some (Char.ofNat (97 + p)) := by
  decide

theorem alphabet_dic_letter : ∀ p, p < 26 → alphabet_dic (Char.ofNat (97 + p)) = some p := by
  decide

theorem toNat_lower_letter : ∀ p, p < 26 → (Char.ofNat (97 + p)).toNat = 97 + p := by
  decide

theorem toNat_upper_letter : ∀ p, p < 26 → (Char.ofNat (65 + p)).toNat = 65 + p := by
  decide

theorem lowercase_lower_letter :
    ∀ p, p < 26 → char_to_lowercase (Char.ofNat (97 + p)) = [Char.ofNat (97 + p)] := by
  decide

theorem lowercase_upper_letter :
    ∀ p, p < 26 → char_to_lowercase (Char.ofNat (65 + p)) = [Char.ofNat (97 + p)] := by
  decide

theorem is_uppercase_lower_letter :
    ∀ p, p < 26 → char_is_uppercase (Char.ofNat (97 + p)) = false := by
  decide

theorem is_uppercase_upper_letter :
    ∀ p, p < 26 → char_is_uppercase (Char.ofNat (65 + p)) = true := by
  decide

theorem uppercase_letter :
    ∀ p, p < 26 → single_char_to_uppercase (Char.ofNat (97 + p)) = [Char.ofNat (65 + p)] := by
  decide

theorem char_to_lowercase_cons (c : Char) : ∃ a as, char_to_lowercase c = a :: as := by
  unfold char_to_lowercase
  split_ifs <;> exact ⟨_, _, rfl⟩

theorem char_to_lowercase_other (c : Char) (h1 : ¬(65 ≤ c.toNat ∧ c.toNat ≤ 90))
    (h3 : c ≠ capitalIWithDot) (h4 : c ≠ kelvinSign) : char_to_lowercase c = [c] := by
  unfold char_to_lowercase
  rw [if_neg h1, if_neg h3, if_neg h4]

theorem alphabet_dic_none (c : Char) (hc : ¬(97 ≤ c.toNat ∧ c.toNat ≤ 122)) :
    alphabet_dic c = none := by
  have ne : ∀ x : Char, 97 ≤ x.toNat ∧ x.toNat ≤ 122 → c ≠ x := by
    intro x hx h
    rw [h] at hc
    exact hc hx
  unfold alphabet_dic
  rw [if_neg (ne 'a' (by decide)), if_neg (ne 'b' (by decide)),
    if_neg (ne 'c' (by decide)), if_neg (ne 'd' (by decide)),
    if_neg (ne 'e' (by decide)), if_neg (ne 'f' (by decide)),
    if_neg (ne 'g' (by decide)), if_neg (ne 'h' (by decide)),
    if_neg (ne 'i' (by decide)), if_neg (ne 'j' (by decide)),
    if_neg (ne 'k' (by decide)), if_neg (ne 'l' (by decide)),
    if_neg (ne 'm' (by decide)), if_neg (ne 'n' (by decide)),
    if_neg (ne 'o' (by decide)), if_neg (ne 'p' (by decide)),
    if_neg (ne 'q' (by decide)), if_neg (ne 'r' (by decide)),
    if_neg (ne 's' (by decide)), if_neg (ne 't' (by decide)),
    if_neg (ne 'u' (by decide)), if_neg (ne 'v' (by decide)),
    if_neg (ne 'w' (by decide)), if_neg (ne 'x' (by decide)),
    if_neg (ne 'y' (by decide)), if_neg (ne 'z' (by decide))]

theorem lower_letter_mem_alphabet : ∀ p, p < 26 → Char.ofNat (97 + p) ∈ alphabet_pos := by
  decide

theorem mem_alphabet_pos_of_range (c : Char) (h : 97 ≤ c.toNat ∧ c.toNat ≤ 122) :
    c ∈ alphabet_pos := by
  obtain ⟨p, hp, rfl⟩ := char_eq_lower_letter c h
  exact lower_letter_mem_alphabet p hp

theorem alphabet_dic_none_of_not_mem (c : Char) (hc : c ∉ alphabet_pos) :
    alphabet_dic c = none :=
  alphabet_dic_none c (fun h => hc (mem_alphabet_pos_of_range c h))

/-! ### Computing the per-character transformation -/

theorem transform_char_lower (key : Int) (dir : Mode) (p : Nat) (h0 : 0 ≤ key) (hp : p < 26) :
    transform_char key dir (Char.ofNat (97 + p)) = Char.ofNat (97 + shift_index key dir p) := by
  unfold transform_char
  rw [lowercase_lower_letter p hp, List.headD_cons, alphabet_dic_letter p hp]
  dsimp only
  rw [alphabet_pos_get _ (shift_index_lt key dir p h0)]
  dsimp only
  rw [is_uppercase_lower_letter p hp, if_neg (by decide)]

theorem transform_char_upper (key : Int) (dir : Mode) (p : Nat) (h0 : 0 ≤ key) (hp : p < 26) :
    transform_char key dir (Char.ofNat (65 + p)) = Char.ofNat (65 + shift_index key dir p) := by
  unfold transform_char
  rw [lowercase_upper_letter p hp, List.headD_cons, alphabet_dic_letter p hp]
  dsimp only
  rw [alphabet_pos_get _ (shift_index_lt key dir p h0)]
  dsimp only
  rw [is_uppercase_upper_letter p hp, if_pos rfl,
    toNat_lower_letter _ (shift_index_lt key dir p h0)]
  congr 1
  omega

theorem transform_char_other (key : Int) (dir : Mode) (c : Char)
    (h1 : ¬(65 ≤ c.toNat ∧ c.toNat ≤ 90)) (h2 : ¬(97 ≤ c.toNat ∧ c.toNat ≤ 122))
    (h3 : c ≠ capitalIWithDot) (h4 : c ≠ kelvinSign) : transform_char key dir c = c := by
  unfold transform_char
  rw [char_to_lowercase_other c h1 h3 h4, List.headD_cons, alphabet_dic_none c h2]

theorem transform_char_idot (key : Int) (dir : Mode) (h0 : 0 ≤ key) :
    transform_char key dir capitalIWithDot = Char.ofNat (65 + shift_index key dir 8) := by
  unfold transform_char
  have hl : char_to_lowercase capitalIWithDot = ['i', combiningDotAbove] := by decide
  have hd : alphabet_dic 'i' = some 8 := by decide
  have hu : char_is_uppercase capitalIWithDot = true := by decide
  rw [hl, List.headD_cons, hd]
  dsimp only
  rw [alphabet_pos_get _ (shift_index_lt key dir 8 h0)]
  dsimp only
  rw [hu, if_pos rfl, toNat_lower_letter _ (shift_index_lt key dir 8 h0)]
  congr 1
  omega

theorem transform_char_kelvin (key : Int) (dir : Mode) (h0 : 0 ≤ key) :
    transform_char key dir kelvinSign = Char.ofNat (65 + shift_index key dir 10) := by
  unfold transform_char
  have hl : char_to_lowercase kelvinSign = ['k'] := by decide
  have hd : alphabet_dic 'k' = some 10 := by decide
  have hu : char_is_uppercase kelvinSign = true := by decide
  rw [hl, List.headD_cons, hd]
  dsimp only
  rw [alphabet_pos_get _ (shift_index_lt key dir 10 h0)]
  dsimp only
  rw [hu, if_pos rfl, toNat_lower_letter _ (shift_index_lt key dir 10 h0)]
  congr 1
  omega

theorem process_char_eq (key : Int) (dir : Mode) (ic : Char) (h0 : 0 ≤ key) :
    process_char key dir ic = some [transform_char key dir ic] := by
  obtain ⟨a, as, hl⟩ := char_to_lowercase_cons ic
  unfold process_char transform_char
  rw [hl, List.head?_cons, List.headD_cons]
  dsimp only
  cases hd : alphabet_dic a with
  | none => rfl
  | some index =>
    dsimp only
    rw [alphabet_pos_get _ (shift_index_lt key dir index h0)]
    dsimp only
    by_cases hu : char_is_uppercase ic = true
    · rw [if_pos hu, if_pos hu, uppercase_letter _ (shift_index_lt key dir index h0),
        toNat_lower_letter _ (shift_index_lt key dir index h0)]
      have he : 97 + shift_index key dir index - 32 = 65 + shift_index key dir index := by
        omega
      rw [he]
    · rw [if_neg hu, if_neg hu]

theorem caesar_go_eq_map (key : Int) (dir : Mode) (h0 : 0 ≤ key) (l : List Char) :
    caesar_go key dir l = some (l.map (transform_char key dir)) := by
  induction l with
  | nil => rfl
  | cons ic rest ih =>
    unfold caesar_go
    rw [process_char_eq key dir ic h0, ih]
    rfl

theorem caesar_eq_map (input : List Char) (key : Int) (dir : Mode) (h0 : 0 ≤ key)
    (h1 : key ≤ 999999) :
    caesar input key dir = Except.ok (some (input.map (transform_char key dir))) := by
  unfold caesar
  rw [if_neg (by omega), if_neg (by omega), caesar_go_eq_map key dir h0 input]

/-! ### Derived per-character properties -/

theorem transform_char_roundtrip (key : Int) (h0 : 0 ≤ key) (c : Char)
    (h3 : c ≠ capitalIWithDot) (h4 : c ≠ kelvinSign) :
    transform_char key Mode.Decrypt (transform_char key Mode.Encrypt c) = c := by
  by_cases hl : 97 ≤ c.toNat ∧ c.toNat ≤ 122
  · obtain ⟨p, hp, rfl⟩ := char_eq_lower_letter c hl
    rw [transform_char_lower key Mode.Encrypt p h0 hp,
      transform_char_lower key Mode.Decrypt _ h0 (shift_index_lt key Mode.Encrypt p h0)]
    congr 1
    show 97 + calc_index_backward (calc_index_forward p key) key = 97 + p
    rw [shift_roundtrip p key h0 hp]
  · by_cases hup : 65 ≤ c.toNat ∧ c.toNat ≤ 90
    · obtain ⟨p, hp, rfl⟩ := char_eq_upper_letter c hup
      rw [transform_char_upper key Mode.Encrypt p h0 hp,
        transform_char_upper key Mode.Decrypt _ h0 (shift_index_lt key Mode.Encrypt p h0)]
      congr 1
      show 65 + calc_index_backward (calc_index_forward p key) key = 65 + p
      rw [shift_roundtrip p key h0 hp]
    · rw [transform_char_other key Mode.Encrypt c hup hl h3 h4,
        transform_char_other key Mode.Decrypt c hup hl h3 h4]

theorem transform_char_zero (dir : Mode) (c : Char) (h3 : c ≠ capitalIWithDot)
    (h4 : c ≠ kelvinSign) : transform_char 0 dir c = c := by
  by_cases hl : 97 ≤ c.toNat ∧ c.toNat ≤ 122
  · obtain ⟨p, hp, rfl⟩ := char_eq_lower_letter c hl
    rw [transform_char_lower 0 dir p (by omega) hp, shift_index_zero dir p hp]
  · by_cases hup : 65 ≤ c.toNat ∧ c.toNat ≤ 90
    · obtain ⟨p, hp, rfl⟩ := char_eq_upper_letter c hup
      rw [transform_char_upper 0 dir p (by omega) hp, shift_index_zero dir p hp]
    · exact transform_char_other 0 dir c hup hl h3 h4

theorem transform_char_mod (key : Int) (dir : Mode) (c : Char) (h0 : 0 ≤ key) :
    transform_char key dir c = transform_char (key % 26) dir c := by
  have h26 : 0 ≤ key % 26 := by omega
  by_cases hl : 97 ≤ c.toNat ∧ c.toNat ≤ 122
  · obtain ⟨p, hp, rfl⟩ := char_eq_lower_letter c hl
    rw [transform_char_lower key dir p h0 hp, transform_char_lower (key % 26) dir p h26 hp,
      shift_index_mod key dir p h0]
  · by_cases hup : 65 ≤ c.toNat ∧ c.toNat ≤ 90
    · obtain ⟨p, hp, rfl⟩ := char_eq_upper_letter c hup
      rw [transform_char_upper key dir p h0 hp, transform_char_upper (key % 26) dir p h26 hp,
        shift_index_mod key dir p h0]
    · by_cases hi : c = capitalIWithDot
      · subst hi
        rw [transform_char_idot key dir h0, transform_char_idot (key % 26) dir h26,
          shift_index_mod key dir 8 h0]
      · by_cases hk : c = kelvinSign
        · subst hk
          rw [transform_char_kelvin key dir h0, transform_char_kelvin (key % 26) dir h26,
            shift_index_mod key dir 10 h0]
        · rw [transform_char_other key dir c hup hl hi hk,
            transform_char_other (key % 26) dir c hup hl hi hk]

theorem transform_char_of_lower_range (key : Int) (dir : Mode) (c : Char) (h0 : 0 ≤ key)
    (h : 97 ≤ c.toNat ∧ c.toNat ≤ 122) :
    97 ≤ (transform_char key dir c).toNat ∧ (transform_char key dir c).toNat ≤ 122 := by
  obtain ⟨p, hp, rfl⟩ := char_eq_lower_letter c h
  rw [transform_char_lower key dir p h0 hp,
    toNat_lower_letter _ (shift_index_lt key dir p h0)]
  have hs := shift_index_lt key dir p h0
  omega

theorem transform_char_of_uppercase (key : Int) (dir : Mode) (c : Char) (h0 : 0 ≤ key)
    (h : char_is_uppercase c = true) :
    65 ≤ (transform_char key dir c).toNat ∧ (transform_char key dir c).toNat ≤ 90 := by
  by_cases hc : (65 ≤ c.toNat ∧ c.toNat ≤ 90) ∨ c = capitalIWithDot ∨ c = kelvinSign
  · rcases hc with hup | hi | hk
    · obtain ⟨p, hp, rfl⟩ := char_eq_upper_letter c hup
      rw [transform_char_upper key dir p h0 hp,
        toNat_upper_letter _ (shift_index_lt key dir p h0)]
      have hs := shift_index_lt key dir p h0
      omega
    · subst hi
      rw [transform_char_idot key dir h0,
        toNat_upper_letter _ (shift_index_lt key dir 8 h0)]
      have hs := shift_index_lt key dir 8 h0
      omega
    · subst hk
      rw [transform_char_kelvin key dir h0,
        toNat_upper_letter _ (shift_index_lt key dir 10 h0)]
      have hs := shift_index_lt key dir 10 h0
      omega
  · exfalso
    unfold char_is_uppercase at h
    rw [if_neg hc] at h
    exact absurd h (by decide)

theorem transform_char_pass (key : Int) (dir : Mode) (c : Char)
    (hc : alphabet_dic ((char_to_lowercase c).headD c) = none) :
    transform_char key dir c = c := by
  unfold transform_char
  rw [hc]

/-! ### Shared helpers for whole-string properties -/

theorem map_transform_roundtrip (key : Int) (h0 : 0 ≤ key) :
    ∀ t : List Char, (∀ c ∈ t, c ≠ capitalIWithDot ∧ c ≠ kelvinSign) →
      (t.map (transform_char key Mode.Encrypt)).map (transform_char key Mode.Decrypt) = t := by
  intro t
  induction t with
  | nil =>
    intro _
    rfl
  | cons c rest ih =>
    intro ht
    rw [List.map_cons, List.map_cons,
      transform_char_roundtrip key h0 c (ht c (List.mem_cons_self c rest)).1
        (ht c (List.mem_cons_self c rest)).2,
      ih (fun x hx => ht x (List.mem_cons_of_mem c hx))]

theorem map_transform_zero (dir : Mode) :
    ∀ t : List Char, (∀ c ∈ t, c ≠ capitalIWithDot ∧ c ≠ kelvinSign) →
      t.map (transform_char 0 dir) = t := by
  intro t
  induction t with
  | nil =>
    intro _
    rfl
  | cons c rest ih =>
    intro ht
    rw [List.map_cons,
      transform_char_zero dir c (ht c (List.mem_cons_self c rest)).1
        (ht c (List.mem_cons_self c rest)).2,
      ih (fun x hx => ht x (List.mem_cons_of_mem c hx))]

/-! ### The claimed properties -/

/-- Claim C1, counterexample to the claim as stated: for the KELVIN SIGN U+212A and
key 1, caesar encrypts the one-character string to L, and decrypting L with the same
key yields the ASCII letter K, which is a different character than U+212A, so
decrypting the encryption does not return the original string. -/
theorem caesar_roundtrip_counterexample :
    caesar [kelvinSign] 1 Mode.Encrypt = Except.ok (some ['L'])
      ∧ caesar ['L'] 1 Mode.Decrypt = Except.ok (some ['K'])
      ∧ ['K'] ≠ [kelvinSign] :=
  ⟨rfl, rfl, by decide⟩

/-- Claim C1 (amended): for every key in [0, 999999] and every input string t that
contains neither U+0130 nor U+212A (the only two characters whose encryption loses
information), decrypting the encryption of t with the same key returns t. -/
theorem caesar_roundtrip (key : Int) (t : List Char) (h0 : 0 ≤ key) (h1 : key ≤ 999999)
    (ht : ∀ c ∈ t, c ≠ capitalIWithDot ∧ c ≠ kelvinSign) :
    ∃ u, caesar t key Mode.Encrypt = Except.ok (some u)
      ∧ caesar u key Mode.Decrypt = Except.ok (some t) := by
  refine ⟨t.map (transform_char key Mode.Encrypt),
    caesar_eq_map t key Mode.Encrypt h0 h1, ?_⟩
  rw [caesar_eq_map _ key Mode.Decrypt h0 h1, map_transform_roundtrip key h0 t ht]

/-- Claim C1, witness: the amended round trip at key 3 on the string a, B, !. -/
theorem caesar_roundtrip_witness :
    (0 : Int) ≤ 3 ∧ (3 : Int) ≤ 999999
      ∧ (∀ c ∈ ['a', 'B', '!'], c ≠ capitalIWithDot ∧ c ≠ kelvinSign)
      ∧ ∃ u, caesar ['a', 'B', '!'] 3 Mode.Encrypt = Except.ok (some u)
          ∧ caesar u 3 Mode.Decrypt = Except.ok (some ['a', 'B', '!']) :=
  ⟨by decide, by decide, by decide,
    caesar_roundtrip 3 ['a', 'B', '!'] (by decide) (by decide) (by decide)⟩

/-- Claim C2: for every input string and mode, caesar returns Err(KeyError) exactly
when the key is negative or greater than 999999; in particular the keys minus one
and one million fail while 0 and 999999 succeed with an output and no panic, and no
input string or mode influences failure. -/
theorem caesar_key_error_iff (input : List Char) (key : Int) (dir : Mode) :
    (caesar input key dir = Except.error KeyError.mk ↔ (key < 0 ∨ 999999 < key))
      ∧ caesar input (-1) dir = Except.error KeyError.mk
      ∧ caesar input 1000000 dir = Except.error KeyError.mk
      ∧ (∃ out, caesar input 0 dir = Except.ok (some out))
      ∧ (∃ out, caesar input 999999 dir = Except.ok (some out)) := by
  refine ⟨⟨?_, ?_⟩, ?_, ?_, ?_, ?_⟩
  · intro h
    by_cases hneg : key < 0
    · exact Or.inl hneg
    · by_cases hbig : 999999 < key
      · exact Or.inr hbig
      · exfalso
        rw [caesar_eq_map input key dir (by omega) (by omega)] at h
        exact Except.noConfusion h
  · intro h
    unfold caesar
    rcases h with h | h
    · rw [if_pos h]
    · rw [if_neg (by omega), if_pos h]
  · unfold caesar
    rw [if_pos (by omega)]
  · unfold caesar
    rw [if_neg (by omega), if_pos (by omega)]
  · exact ⟨_, caesar_eq_map input 0 dir (by omega) (by omega)⟩
  · exact ⟨_, caesar_eq_map input 999999 dir (by omega) (by omega)⟩

/-- Claim C3: for a valid key, a letter at alphabet position p encrypts to the
letter at position (p + key) mod 26 and decrypts to the letter at position
(p - key) mod 26 (the truncating remainder normalized into [0, 25], i.e. the
mathematical residue); wrap-around works by modulo reduction for arbitrarily large
valid keys, e.g. XY shifted forward by 3 gives AB and ABC shifted forward by
999999 gives NOP. -/
theorem caesar_shift_positions (key : Int) (p : Nat) (h0 : 0 ≤ key) (h1 : key ≤ 999999)
    (hp : p < 26) :
    (calc_index_forward p key = (((p : Int) + key) % 26).toNat
      ∧ calc_index_backward p key = (((p : Int) - key) % 26).toNat)
      ∧ caesar [Char.ofNat (97 + p)] key Mode.Encrypt
          = Except.ok (some [Char.ofNat (97 + calc_index_forward p key)])
      ∧ caesar [Char.ofNat (97 + p)] key Mode.Decrypt
          = Except.ok (some [Char.ofNat (97 + calc_index_backward p key)])
      ∧ caesar ['X', 'Y'] 3 Mode.Encrypt = Except.ok (some ['A', 'B'])
      ∧ caesar ['A', 'B', 'C'] 999999 Mode.Encrypt = Except.ok (some ['N', 'O', 'P']) := by
  refine ⟨⟨calc_index_forward_eq p key h0, calc_index_backward_eq p key⟩, ?_, ?_, rfl, rfl⟩
  · rw [caesar_eq_map _ key Mode.Encrypt h0 h1, List.map_cons, List.map_nil,
      transform_char_lower key Mode.Encrypt p h0 hp]
    rfl
  · rw [caesar_eq_map _ key Mode.Decrypt h0 h1, List.map_cons, List.map_nil,
      transform_char_lower key Mode.Decrypt p h0 hp]
    rfl

/-- Claim C3, witness: the position formulas and the single-letter behaviour at
key 1, position 0. -/
theorem caesar_shift_positions_witness :
    (0 : Int) ≤ 1 ∧ (1 : Int) ≤ 999999 ∧ 0 < 26
      ∧ caesar [Char.ofNat (97 + 0)] 1 Mode.Encrypt
          = Except.ok (some [Char.ofNat (97 + calc_index_forward 0 1)]) :=
  ⟨by decide, by decide, by decide,
    (caesar_shift_positions 1 0 (by decide) (by decide) (by decide)).2.1⟩

/-- Claim C4, counterexample to the claim as stated: the lowercase form of U+0130 is
the two-character sequence i, U+0307, which is not one of the 26 Latin letters, yet
with key 1 caesar transforms U+0130 into J instead of passing it through. -/
theorem caesar_pass_through_counterexample :
    (∀ l ∈ alphabet_pos, char_to_lowercase capitalIWithDot ≠ [l])
      ∧ caesar [capitalIWithDot] 1 Mode.Encrypt = Except.ok (some ['J'])
      ∧ 'J' ≠ capitalIWithDot :=
  ⟨by decide, rfl, by decide⟩

/-- Claim C4 (amended): for every valid key and mode, any input character such that
the first character of its lowercase expansion is not one of the 26 Latin letters
appears unchanged, at the same position, in the output of caesar. -/
theorem caesar_pass_through (key : Int) (dir : Mode) (input : List Char) (j : Nat)
    (c : Char) (h0 : 0 ≤ key) (h1 : key ≤ 999999) (hj : input.get? j = some c)
    (hc : (char_to_lowercase c).headD c ∉ alphabet_pos) :
    ∃ out, caesar input key dir = Except.ok (some out) ∧ out.get? j = some c := by
  refine ⟨input.map (transform_char key dir), caesar_eq_map input key dir h0 h1, ?_⟩
  rw [List.get?_map, hj]
  show some (transform_char key dir c) = some c
  rw [transform_char_pass key dir c (alphabet_dic_none_of_not_mem _ hc)]

/-- Claim C4, witness: a question mark passes through encryption with key 1. -/
theorem caesar_pass_through_witness :
    (0 : Int) ≤ 1 ∧ (1 : Int) ≤ 999999
      ∧ (['?'] : List Char).get? 0 = some '?'
      ∧ (char_to_lowercase '?').headD '?' ∉ alphabet_pos
      ∧ ∃ out, caesar ['?'] 1 Mode.Encrypt = Except.ok (some out)
          ∧ out.get? 0 = some '?' :=
  ⟨by decide, by decide, rfl, by decide,
    caesar_pass_through 1 Mode.Encrypt ['?'] 0 '?' (by decide) (by decide) rfl (by decide)⟩

/-- Claim C5: for every valid key in [0, 999999], every mode and every input string,
caesar with key equals caesar with key mod 26. -/
theorem caesar_periodicity (input : List Char) (key : Int) (dir : Mode)
    (h0 : 0 ≤ key) (h1 : key ≤ 999999) :
    caesar input key dir = caesar input (key % 26) dir := by
  rw [caesar_eq_map input key dir h0 h1,
    caesar_eq_map input (key % 26) dir (by omega) (by omega)]
  have hmap : input.map (transform_char key dir) = input.map (transform_char (key % 26) dir) := by
    induction input with
    | nil => rfl
    | cons c rest ih =>
      rw [List.map_cons, List.map_cons, transform_char_mod key dir c h0, ih]
  rw [hmap]

/-- Claim C5, witness: periodicity at key 27 on a three-character string. -/
theorem caesar_periodicity_witness :
    (0 : Int) ≤ 27 ∧ (27 : Int) ≤ 999999
      ∧ caesar ['a', 'Z', '!'] 27 Mode.Encrypt
          = caesar ['a', 'Z', '!'] ((27 : Int) % 26) Mode.Encrypt :=
  ⟨by decide, by decide, caesar_periodicity ['a', 'Z', '!'] 27 Mode.Encrypt (by decide) (by decide)⟩

/-- Claim C6, counterexample to the claim as stated: with key 0 the KELVIN SIGN
U+212A is rewritten to the ASCII letter K, so the output is not identical to the
input. -/
theorem caesar_identity_zero_counterexample :
    caesar [kelvinSign] 0 Mode.Encrypt = Except.ok (some ['K'])
      ∧ ['K'] ≠ [kelvinSign] :=
  ⟨rfl, by decide⟩

/-- Claim C6 (amended): for every input string t containing neither U+0130 nor
U+212A and both modes, caesar with key 0 succeeds and returns t itself. -/
theorem caesar_identity_zero (t : List Char) (dir : Mode)
    (ht : ∀ c ∈ t, c ≠ capitalIWithDot ∧ c ≠ kelvinSign) :
    caesar t 0 dir = Except.ok (some t) := by
  rw [caesar_eq_map t 0 dir (by omega) (by omega), map_transform_zero dir t ht]

/-- Claim C6, witness: identity at key 0 on the string a, B, space. -/
theorem caesar_identity_zero_witness :
    (∀ c ∈ ['a', 'B', ' '], c ≠ capitalIWithDot ∧ c ≠ kelvinSign)
      ∧ caesar ['a', 'B', ' '] 0 Mode.Decrypt = Except.ok (some ['a', 'B', ' ']) :=
  ⟨by decide, caesar_identity_zero ['a', 'B', ' '] Mode.Decrypt (by decide)⟩

/-- Claim C7: for every valid key and mode, an uppercase alphabetic input character
(one with the Uppercase property that caesar transforms) yields an uppercase ASCII
letter at the same output position, and a lowercase letter a-z yields a lowercase
letter a-z. -/
theorem caesar_case_preservation (input out : List Char) (key : Int) (dir : Mode)
    (j : Nat) (c o : Char) (h0 : 0 ≤ key) (h1 : key ≤ 999999)
    (hout : caesar input key dir = Except.ok (some out))
    (hc : input.get? j = some c) (ho : out.get? j = some o) :
    (char_is_uppercase c = true → 65 ≤ o.toNat ∧ o.toNat ≤ 90)
      ∧ (97 ≤ c.toNat ∧ c.toNat ≤ 122 → 97 ≤ o.toNat ∧ o.toNat ≤ 122) := by
  rw [caesar_eq_map input key dir h0 h1] at hout
  have h2 : some (input.map (transform_char key dir)) = some out := by
    injection hout
  have h3 : input.map (transform_char key dir) = out := by
    injection h2
  subst h3
  rw [List.get?_map, hc] at ho
  have ho2 : some (transform_char key dir c) = some o := ho
  have he : transform_char key dir c = o := by
    injection ho2
  constructor
  · intro hu
    rw [← he]
    exact transform_char_of_uppercase key dir c h0 hu
  · intro hlow
    rw [← he]
    exact transform_char_of_lower_range key dir c h0 hlow

/-- Claim C7, witness: A encrypts to B with key 1, uppercase to uppercase. -/
theorem caesar_case_preservation_witness :
    (0 : Int) ≤ 1 ∧ (1 : Int) ≤ 999999
      ∧ caesar ['A'] 1 Mode.Encrypt = Except.ok (some ['B'])
      ∧ (['A'] : List Char).get? 0 = some 'A'
      ∧ (['B'] : List Char).get? 0 = some 'B'
      ∧ ((char_is_uppercase 'A' = true → 65 ≤ Char.toNat 'B' ∧ Char.toNat 'B' ≤ 90)
        ∧ (97 ≤ Char.toNat 'A' ∧ Char.toNat 'A' ≤ 122 →
            97 ≤ Char.toNat 'B' ∧ Char.toNat 'B' ≤ 122)) :=
  ⟨by decide, by decide, rfl, rfl, rfl,
    caesar_case_preservation ['A'] ['B'] 1 Mode.Encrypt 0 'A' 'B' (by decide) (by decide)
      rfl rfl rfl⟩

/-- Claim C8: for every valid key, mode and input string, the successful output of
caesar has the same number of characters as the input. -/
theorem caesar_length_preservation (input : List Char) (key : Int) (dir : Mode)
    (h0 : 0 ≤ key) (h1 : key ≤ 999999) :
    ∃ out, caesar input key dir = Except.ok (some out) ∧ out.length = input.length :=
  ⟨input.map (transform_char key dir), caesar_eq_map input key dir h0 h1,
    List.length_map input (transform_char key dir)⟩

/-- Claim C8, witness: length preservation at key 2 on a mixed string. -/
theorem caesar_length_preservation_witness :
    (0 : Int) ≤ 2 ∧ (2 : Int) ≤ 999999
      ∧ ∃ out, caesar ['a', '!', 'Z'] 2 Mode.Encrypt = Except.ok (some out)
          ∧ out.length = (['a', '!', 'Z'] : List Char).length :=
  ⟨by decide, by decide,
    caesar_length_preservation ['a', '!', 'Z'] 2 Mode.Encrypt (by decide) (by decide)⟩

/-- Claim C9: caesar is a pure deterministic function of its three inputs: two
calls with equal input string, equal key and equal mode give equal results. -/
theorem caesar_deterministic (input1 input2 : List Char) (key1 key2 : Int)
    (dir1 dir2 : Mode) (hi : input1 = input2) (hk : key1 = key2) (hd : dir1 = dir2) :
    caesar input1 key1 dir1 = caesar input2 key2 dir2 := by
  rw [hi, hk, hd]

/-- Claim C9, witness: determinism at a concrete call. -/
theorem caesar_deterministic_witness :
    (['a'] : List Char) = ['a'] ∧ (1 : Int) = 1 ∧ Mode.Encrypt = Mode.Encrypt
      ∧ caesar ['a'] 1 Mode.Encrypt = caesar ['a'] 1 Mode.Encrypt :=
  ⟨rfl, rfl, rfl, caesar_deterministic ['a'] ['a'] 1 1 Mode.Encrypt Mode.Encrypt rfl rfl rfl⟩

/-- Claim C10: for every input string and key in [0, 999999], caesar never panics:
the lowercase expansion of any character is nonempty, so taking its first element
succeeds; the index computed by calc_index_forward or calc_index_backward lies in
[0, 25], so the alphabet lookup succeeds; and caesar returns an ordinary result. -/
theorem caesar_no_panic (input : List Char) (key : Int) (dir : Mode)
    (h0 : 0 ≤ key) (h1 : key ≤ 999999) :
    (∀ c : Char, char_to_lowercase c ≠ [])
      ∧ (∀ p, p < 26 → calc_index_forward p key < 26 ∧ calc_index_backward p key < 26)
      ∧ (∃ out, caesar input key dir = Except.ok (some out)) := by
  refine ⟨?_, ?_, ⟨_, caesar_eq_map input key dir h0 h1⟩⟩
  · intro c
    obtain ⟨a, as, hl⟩ := char_to_lowercase_cons c
    rw [hl]
    exact List.cons_ne_nil a as
  · intro p hp
    exact ⟨calc_index_forward_lt p key h0, calc_index_backward_lt p key⟩

/-- Claim C10, witness: no panic at key 3 on a one-letter string. -/
theorem caesar_no_panic_witness :
    (0 : Int) ≤ 3 ∧ (3 : Int) ≤ 999999
      ∧ ((∀ c : Char, char_to_lowercase c ≠ [])
        ∧ (∀ p, p < 26 → calc_index_forward p 3 < 26 ∧ calc_index_backward p 3 < 26)
        ∧ (∃ out, caesar ['a'] 3 Mode.Encrypt = Except.ok (some out))) :=
  ⟨by decide, by decide, caesar_no_panic ['a'] 3 Mode.Encrypt (by decide) (by decide)⟩
